import Mathlib

/-!
Verification development for the AIFarm sprite-pipeline scripts
(`scripts/process_all_sprites.py`, `scripts/process_building_sprites.py`,
`scripts/recolor_sprites.py`, `scripts/pixelate_sprites.py`,
`scripts/build_sprite_sheets.py`).

The Python scripts are shallowly embedded: RGBA images become a width,
a height and a total pixel function; PIL primitive operations
(`Image.paste` with an alpha mask, `Image.resize` with `Image.NEAREST`,
`Image.getbbox`, `Image.crop`) are modelled after Pillow's C
implementation; Python float arithmetic on ratios and HSV values is
modelled with exact rationals; Python `int()` truncation is `pytrunc`.
Pixels outside an image's declared width/height are irrelevant junk and
all statements quantify over in-bounds coordinates only.
-/

namespace AIFarm

/-- One RGBA pixel; channel values of a well-formed image lie in 0..255. -/
structure RGBA where
  r : Nat
  g : Nat
  b : Nat
  a : Nat
deriving DecidableEq, Repr

/-- The fully transparent pixel `(0, 0, 0, 0)`. -/
def RGBA.clear : RGBA := ⟨0, 0, 0, 0⟩

/-- An RGBA image: dimensions plus a (total) pixel lookup function. -/
structure Img where
  w : Nat
  h : Nat
  pix : Nat → Nat → RGBA

/-- `Image.new("RGBA", (w, h), (0, 0, 0, 0))`: a blank transparent canvas. -/
def Img.blank (w h : Nat) : Img := ⟨w, h, fun _ _ => RGBA.clear⟩

/-- Pillow's `MULDIV255(a, b)` macro: approximate `a*b/255` as
`(t >> 8) + t) >> 8` with `t = a*b + 128`. -/
def muldiv255 (x y : Nat) : Nat := ((x * y + 128) / 256 + (x * y + 128)) / 256

/-- Pillow's `BLEND` macro for one channel: destination `d`, source `s`,
mask value `m`. -/
def blendChan (m d s : Nat) : Nat := muldiv255 d (255 - m) + muldiv255 s m

/-- Compositing one source pixel over one destination pixel as
`Image.paste(im, box, mask)` does when the mask is the source's own alpha
band: every band (alpha included) is blended under the mask. -/
def blendPixel (d s : RGBA) : RGBA :=
  ⟨blendChan s.a d.r s.r, blendChan s.a d.g s.g, blendChan s.a d.b s.b,
    blendChan s.a d.a s.a⟩

/-- `canvas.paste(frame, (ox, oy), frame)`: paste `frame` at offset
`(ox, oy)` using the frame itself (its alpha band) as mask.  The pasted
region is clipped to the canvas, as Pillow clips the paste box. -/
def pasteMask (canvas frame : Img) (ox oy : Int) : Img :=
  ⟨canvas.w, canvas.h, fun X Y =>
    if X < canvas.w ∧ Y < canvas.h ∧
        ox ≤ (X : Int) ∧ (X : Int) < ox + frame.w ∧
        oy ≤ (Y : Int) ∧ (Y : Int) < oy + frame.h then
      blendPixel (canvas.pix X Y) (frame.pix ((X : Int) - ox).toNat ((Y : Int) - oy).toNat)
    else canvas.pix X Y⟩

/-- Pillow `Image.NEAREST` source index for destination index `i` when
resizing a span of `src` pixels to `dst` pixels: `floor((i + 0.5) * src / dst)`. -/
def nearestIndex (dst src i : Nat) : Nat := (2 * i + 1) * src / (2 * dst)

/-- `img.resize((nw, nh), Image.NEAREST)`. -/
def resizeNearest (img : Img) (nw nh : Nat) : Img :=
  ⟨nw, nh, fun x y => img.pix (nearestIndex nw img.w x) (nearestIndex nh img.h y)⟩

/-- A pixel is counted by `Image.getbbox` when it is not `(0, 0, 0, 0)`. -/
def nonzeroPix (p : RGBA) : Bool := !(p.r == 0 && p.g == 0 && p.b == 0 && p.a == 0)

/-- Column `x` contains some nonzero pixel. -/
def colNonzero (img : Img) (x : Nat) : Bool :=
  (List.range img.h).any fun y => nonzeroPix (img.pix x y)

/-- Row `y` contains some nonzero pixel. -/
def rowNonzero (img : Img) (y : Nat) : Bool :=
  (List.range img.w).any fun x => nonzeroPix (img.pix x y)

/-- `img.getbbox()`: the smallest `(left, upper, right, lower)` box (right
and lower exclusive) containing every nonzero pixel, or `none` when the
image has no nonzero pixel. -/
def getbbox (img : Img) : Option (Nat × Nat × Nat × Nat) :=
  match ((List.range img.w).filter (colNonzero img)).min?,
      ((List.range img.w).filter (colNonzero img)).max?,
      ((List.range img.h).filter (rowNonzero img)).min?,
      ((List.range img.h).filter (rowNonzero img)).max? with
  | some l, some r, some u, some d => some (l, u, r + 1, d + 1)
  | _, _, _, _ => none

/-- `img.crop((l, u, r, d))` for a box inside the image. -/
def crop (img : Img) (box : Nat × Nat × Nat × Nat) : Img :=
  ⟨box.2.2.1 - box.1, box.2.2.2 - box.2.1,
    fun x y => img.pix (box.1 + x) (box.2.1 + y)⟩

/-- Python `int(q)`: truncation toward zero. -/
def pytrunc (q : ℚ) : Int := if 0 ≤ q then ⌊q⌋ else ⌈q⌉

/-! ## Normalizer (`process_sprite` in `process_all_sprites.py` /
`process_building_sprites.py`)

The rembg background-removal call is an external collaborator (out of
scope per the spec); the embedding starts from its RGBA cutout result.
Python float division/multiplication on the fit ratio is modelled with
exact rationals.  The characters/animals path resizes with
`Image.NEAREST` (`use_lanczos=False`); `process_building_sprites.py`
also uses `Image.NEAREST`. -/

/-- `ratio = min(target_w / img.width, target_h / img.height)`. -/
def fitRatio (c : Img) (tw th : Nat) : ℚ :=
  min ((tw : ℚ) / c.w) ((th : ℚ) / c.h)

/-- `new_w = max(1, int(img.width * ratio))`. -/
def fitW (c : Img) (tw th : Nat) : Nat :=
  max 1 (pytrunc ((c.w : ℚ) * fitRatio c tw th)).toNat

/-- `new_h = max(1, int(img.height * ratio))`. -/
def fitH (c : Img) (tw th : Nat) : Nat :=
  max 1 (pytrunc ((c.h : ℚ) * fitRatio c tw th)).toNat

/-- `process_sprite`: crop to the `getbbox` box when it is non-`None`,
skip (return `none`) when the resulting width or height is zero,
otherwise scale by `min(target_w/w, target_h/h)` (at least 1 pixel per
dimension), and paste centered horizontally and bottom-aligned onto a
transparent canvas of the target size (offsets `(tw - nw) // 2` and
`th - nh` with Python floor division on ints, hence `Int.fdiv`). -/
def processSprite (img : Img) (tw th : Nat) : Option Img :=
  let img1 := match getbbox img with
    | some box => crop img box
    | none => img
  if img1.w = 0 ∨ img1.h = 0 then none
  else
    let nw : Nat := fitW img1 tw th
    let nh : Nat := fitH img1 tw th
    let scaled := resizeNearest img1 nw nh
    let ox : Int := Int.fdiv ((tw : Int) - (nw : Int)) 2
    let oy : Int := (th : Int) - (nh : Int)
    some (pasteMask (Img.blank tw th) scaled ox oy)

/-! ## Sheet assembler (`build_character_sheets` / `build_animal_sheets`
in `build_sprite_sheets.py`)

A subject's frame files are a partial map from (direction row, frame
column) to an image, `none` meaning the file is absent.  The Python
nested `for row / for col` loop is the row-major fold below. -/

/-- The direction list fixing the row order of every sheet. -/
def DIRECTIONS : List String := ["front", "left", "right", "back"]

/-- Row-major list of the `R * C` grid slots `(row, col)`. -/
def slots (R C : Nat) : List (Nat × Nat) :=
  (List.range R).flatMap fun r => (List.range C).map fun c => (r, c)

/-- `if frame.size != (fw, fh): frame = frame.resize((fw, fh), Image.NEAREST)`. -/
def normFrame (fw fh : Nat) (f : Img) : Img :=
  if f.w = fw ∧ f.h = fh then f else resizeNearest f fw fh

/-- One iteration of the sheet loop: paste the slot's frame (resized to
the canonical size if needed) with its own alpha as mask, or count the
slot as missing. -/
def assembleStep (fw fh : Nat) (frames : Nat → Nat → Option Img)
    (acc : Img × Nat) (rc : Nat × Nat) : Img × Nat :=
  match frames rc.1 rc.2 with
  | some f =>
      (pasteMask acc.1 (normFrame fw fh f) ((rc.2 * fw : Nat) : Int) ((rc.1 * fh : Nat) : Int),
        acc.2)
  | none => (acc.1, acc.2 + 1)

/-- The sheet loop: start from a transparent `fw*C` by `fh*R` canvas and
a zero missing counter and fold over all grid slots in row-major order. -/
def buildSheet (fw fh R C : Nat) (frames : Nat → Nat → Option Img) : Img × Nat :=
  (slots R C).foldl (assembleStep fw fh frames) (Img.blank (fw * C) (fh * R), 0)

/-- A whole subject in `build_character_sheets` / `build_animal_sheets`:
if the test frame (direction `front` = row 0, frame 0) is absent the
subject is skipped outright; otherwise the canonical frame size is read
from that sample frame and the sheet is built and saved. -/
def build_subject (R C : Nat) (frames : Nat → Nat → Option Img) : Option (Img × Nat) :=
  match frames 0 0 with
  | none => none
  | some sample => some (buildSheet sample.w sample.h R C frames)

/-- Number of grid slots whose frame file is absent. -/
def missingCount (R C : Nat) (frames : Nat → Nat → Option Img) : Nat :=
  ((slots R C).filter fun rc => (frames rc.1 rc.2).isNone).length

/-! ## Recolorizer (`recolor_sprites.py`)

`recolor_pixel` works on Python ints and floats; the embedding keeps the
channel values as `Int` (Python ints) and models the float HSV math of
`colorsys` with exact rationals. -/

/-- Lower end of the blue source hue band (`BLUE_HUE_MIN`). -/
def BLUE_HUE_MIN : ℚ := 170

/-- Upper end of the blue source hue band (`BLUE_HUE_MAX`). -/
def BLUE_HUE_MAX : ℚ := 260

/-- `maxc = max(r, g, b)` in `colorsys.rgb_to_hsv`. -/
def hsvMax (r g b : ℚ) : ℚ := max r (max g b)

/-- `minc = min(r, g, b)` in `colorsys.rgb_to_hsv`. -/
def hsvMin (r g b : ℚ) : ℚ := min r (min g b)

/-- The pre-wraparound hue of `colorsys.rgb_to_hsv` (its local `h` before
`(h/6.0) % 1.0`), written with the locals `rc = (maxc-r)/(maxc-minc)`,
`gc = (maxc-g)/(maxc-minc)`, `bc = (maxc-b)/(maxc-minc)` inlined:
`bc - gc` when `r == maxc`, `2 + rc - bc` when `g == maxc`, else
`4 + gc - rc`. -/
def hueSix (r g b : ℚ) : ℚ :=
  if r = hsvMax r g b then
    (hsvMax r g b - b) / (hsvMax r g b - hsvMin r g b) -
      (hsvMax r g b - g) / (hsvMax r g b - hsvMin r g b)
  else if g = hsvMax r g b then
    2 + (hsvMax r g b - r) / (hsvMax r g b - hsvMin r g b) -
      (hsvMax r g b - b) / (hsvMax r g b - hsvMin r g b)
  else
    4 + (hsvMax r g b - g) / (hsvMax r g b - hsvMin r g b) -
      (hsvMax r g b - r) / (hsvMax r g b - hsvMin r g b)

/-- `colorsys.rgb_to_hsv` on `[0, 1]`-scaled channels, with Python's
`% 1.0` on the hue modelled by `Int.fract` and the locals
`v = maxc`, `s = (maxc-minc)/maxc` inlined. -/
def rgb_to_hsv (r g b : ℚ) : ℚ × ℚ × ℚ :=
  if hsvMin r g b = hsvMax r g b then (0, 0, hsvMax r g b)
  else
    (Int.fract (hueSix r g b / 6),
      (hsvMax r g b - hsvMin r g b) / hsvMax r g b,
      hsvMax r g b)

/-- `i = int(h*6.0)` in `colorsys.hsv_to_rgb` (before `i = i%6`). -/
def hsvI (h : ℚ) : Int := pytrunc (h * 6)

/-- `f = (h*6.0) - i` in `colorsys.hsv_to_rgb`. -/
def hsvF (h : ℚ) : ℚ := h * 6 - hsvI h

/-- `p = v*(1.0-s)` in `colorsys.hsv_to_rgb`. -/
def hsvP (s v : ℚ) : ℚ := v * (1 - s)

/-- `q = v*(1.0-s*f)` in `colorsys.hsv_to_rgb`. -/
def hsvQ (h s v : ℚ) : ℚ := v * (1 - s * hsvF h)

/-- `t = v*(1.0-s*(1.0-f))` in `colorsys.hsv_to_rgb`. -/
def hsvT (h s v : ℚ) : ℚ := v * (1 - s * (1 - hsvF h))

/-- `colorsys.hsv_to_rgb`, with Python `int(h*6.0)` as `pytrunc`, the
Python `%` on ints as `Int.emod`, and the locals as the helper
functions above. -/
def hsv_to_rgb (h s v : ℚ) : ℚ × ℚ × ℚ :=
  if s = 0 then (v, v, v)
  else if hsvI h % 6 = 0 then (v, hsvT h s v, hsvP s v)
  else if hsvI h % 6 = 1 then (hsvQ h s v, v, hsvP s v)
  else if hsvI h % 6 = 2 then (hsvP s v, v, hsvT h s v)
  else if hsvI h % 6 = 3 then (hsvP s v, hsvQ h s v, v)
  else if hsvI h % 6 = 4 then (hsvT h s v, hsvP s v, v)
  else (v, hsvP s v, hsvQ h s v)

/-- The HSV triple of an 8-bit RGB pixel, as `recolor_pixel` computes it:
`colorsys.rgb_to_hsv(r / 255.0, g / 255.0, b / 255.0)`. -/
def hsvOf (r g b : Int) : ℚ × ℚ × ℚ :=
  rgb_to_hsv ((r : ℚ) / 255) ((g : ℚ) / 255) ((b : ℚ) / 255)

/-- The pixel hue in degrees (`hue_deg = h * 360`). -/
def hueDegOf (r g b : Int) : ℚ := (hsvOf r g b).1 * 360

/-- The pixel saturation (the `s` of the HSV triple). -/
def satOf (r g b : Int) : ℚ := (hsvOf r g b).2.1

/-- The pixel value (the `v` of the HSV triple). -/
def valOf (r g b : Int) : ℚ := (hsvOf r g b).2.2

/-- `recolor_pixel`: skip near-transparent pixels; rewrite pixels whose
hue lies in the blue band with saturation above the floor to the target
hue with boosted, clamped saturation and value (`new_s`, `new_v`
inlined); pass everything else through unchanged. -/
def recolor_pixel (r g b a : Int) (target_hue sat_boost val_boost : ℚ) :
    Int × Int × Int × Int :=
  if a < 10 then (r, g, b, a)
  else if BLUE_HUE_MIN ≤ hueDegOf r g b ∧ hueDegOf r g b ≤ BLUE_HUE_MAX ∧
      (0.15 : ℚ) < satOf r g b then
    (pytrunc ((hsv_to_rgb (target_hue / 360) (min 1 (satOf r g b * sat_boost))
        (min 1 (valOf r g b * val_boost))).1 * 255),
      pytrunc ((hsv_to_rgb (target_hue / 360) (min 1 (satOf r g b * sat_boost))
        (min 1 (valOf r g b * val_boost))).2.1 * 255),
      pytrunc ((hsv_to_rgb (target_hue / 360) (min 1 (satOf r g b * sat_boost))
        (min 1 (valOf r g b * val_boost))).2.2 * 255),
      a)
  else (r, g, b, a)

/-- An image as `recolor_image` sees it: Python int channel tuples
`(r, g, b, a)` read from and written back to `pixels[x, y]`. -/
structure RImg where
  w : Nat
  h : Nat
  pix : Nat → Nat → Int × Int × Int × Int

/-- An 8-bit pixel tuple as PIL delivers it: each color channel lies in
`0..255`. -/
def chanOK (p : Int × Int × Int × Int) : Prop :=
  0 ≤ p.1 ∧ p.1 ≤ 255 ∧ 0 ≤ p.2.1 ∧ p.2.1 ≤ 255 ∧ 0 ≤ p.2.2.1 ∧ p.2.2.1 ≤ 255

instance (p : Int × Int × Int × Int) : Decidable (chanOK p) := by
  unfold chanOK
  infer_instance

/-- `recolor_image`: rewrite every pixel with `recolor_pixel`.  The
Python loop writes each coordinate exactly once from its own prior
value, so it is the pointwise map below. -/
def recolor_image (img : RImg) (target_hue sat_boost val_boost : ℚ) : RImg :=
  ⟨img.w, img.h, fun x y =>
    let p := img.pix x y
    recolor_pixel p.1 p.2.1 p.2.2.1 p.2.2.2 target_hue sat_boost val_boost⟩

/-! ## Pixelizer (`pixelate_sprites.py`) -/

/-- One 8-bit band of an image, as produced by `img.split()`. -/
structure Chan where
  w : Nat
  h : Nat
  pix : Nat → Nat → Nat

/-- The red band of `img.split()`. -/
def Img.chanR (img : Img) : Chan := ⟨img.w, img.h, fun x y => (img.pix x y).r⟩

/-- The green band of `img.split()`. -/
def Img.chanG (img : Img) : Chan := ⟨img.w, img.h, fun x y => (img.pix x y).g⟩

/-- The blue band of `img.split()`. -/
def Img.chanB (img : Img) : Chan := ⟨img.w, img.h, fun x y => (img.pix x y).b⟩

/-- The alpha band of `img.split()`. -/
def Img.chanA (img : Img) : Chan := ⟨img.w, img.h, fun x y => (img.pix x y).a⟩

/-- `Image.NEAREST` resize of a single band (Pillow resizes a multiband
image band by band, so resizing the merged RGB image equals resizing its
bands independently). -/
def resizeNearestC (c : Chan) (nw nh : Nat) : Chan :=
  ⟨nw, nh, fun x y => c.pix (nearestIndex nw c.w x) (nearestIndex nh c.h y)⟩

/-- `Image.merge('RGBA', (r, g, b, a))`. -/
def mergeRGBA (r g b a : Chan) : Img :=
  ⟨r.w, r.h, fun x y => ⟨r.pix x y, g.pix x y, b.pix x y, a.pix x y⟩⟩

/-- The downsample target size of `pixelate`:
`(max(1, int(w * factor)), max(1, int(h * factor)))`. -/
def pixelateSmall (img : Img) (factor : ℚ) : Nat × Nat :=
  (max 1 (pytrunc ((img.w : ℚ) * factor)).toNat,
    max 1 (pytrunc ((img.h : ℚ) * factor)).toNat)

/-- `pixelate` on an RGBA image (every caller converts to RGBA first):
split the bands, downscale the RGB bands and the alpha band independently
with `Image.NEAREST`, upscale back to the original size with
`Image.NEAREST`, and re-merge. -/
def pixelate (img : Img) (factor : ℚ) : Img :=
  let small := pixelateSmall img factor
  let roundtrip := fun c =>
    resizeNearestC (resizeNearestC c small.1 small.2) img.w img.h
  mergeRGBA (roundtrip img.chanR) (roundtrip img.chanG) (roundtrip img.chanB)
    (roundtrip img.chanA)

/-! ## Palette quantization (`quantize_colors` in `pixelate_sprites.py`)

`rgb.quantize(colors=max_colors, method=MEDIANCUT).convert('RGB')` is a
Pillow library call; the embedding takes that library transform as an
explicit parameter `quantizeLib`, whose documented contract (the output
uses at most `max_colors` distinct colors and keeps the image size) is a
hypothesis of the theorems about `quantize_colors`. -/

/-- An RGB (no alpha) image, as produced by `Image.merge('RGB', (r, g, b))`. -/
structure CImg where
  w : Nat
  h : Nat
  pix : Nat → Nat → Nat × Nat × Nat

/-- The RGB part `Image.merge('RGB', (r, g, b))` of an RGBA image. -/
def Img.rgbPart (img : Img) : CImg :=
  ⟨img.w, img.h, fun x y => ((img.pix x y).r, (img.pix x y).g, (img.pix x y).b)⟩

/-- `Image.merge('RGBA', (qr, qg, qb, a))`: RGB content plus an alpha band. -/
def mergeWithAlpha (c : CImg) (al : Chan) : Img :=
  ⟨c.w, c.h, fun x y => ⟨(c.pix x y).1, (c.pix x y).2.1, (c.pix x y).2.2, al.pix x y⟩⟩

/-- The distinct colors appearing at in-bounds coordinates. -/
def CImg.colorList (c : CImg) : List (Nat × Nat × Nat) :=
  ((List.range c.h).flatMap fun y => (List.range c.w).map fun x => c.pix x y).dedup

/-- Number of distinct in-bounds colors. -/
def CImg.colorCount (c : CImg) : Nat := c.colorList.length

/-- `quantize_colors`: return the image unchanged when `max_colors <= 0`
(the `mode != 'RGBA'` guard cannot fire here, the embedded image type is
always RGBA); otherwise quantize the RGB part with the library call and
re-merge it with the original alpha band. -/
def quantize_colors (quantizeLib : CImg → Nat → CImg) (img : Img) (max_colors : Int) : Img :=
  if max_colors ≤ 0 then img
  else mergeWithAlpha (quantizeLib img.rgbPart max_colors.toNat) img.chanA

/-! ## Batch loops (error containment)

Per-item work is summarized by its outcome: `Except.error e` is a raised
exception with message `e`, `Except.ok true` a processed item,
`Except.ok false` a skipped ("EMPTY") item. -/

/-- The loop shape of `process_characters` / `process_buildings` /
`process_animals` in `process_all_sprites.py` and of `main` in
`process_building_sprites.py`: each item's work sits inside
`try ... except Exception`, so an exception is logged for that item and
the loop continues; the result is the success count and the per-item log. -/
def guardedStep (acc : Nat × List String) (o : Except String Bool) : Nat × List String :=
  match o with
  | Except.ok true => (acc.1 + 1, acc.2 ++ ["OK"])
  | Except.ok false => (acc.1, acc.2 ++ ["EMPTY"])
  | Except.error e => (acc.1, acc.2 ++ ["ERROR: " ++ e])

/-- The guarded loop itself: fold `guardedStep` over the items. -/
def guarded_batch (outcomes : List (Except String Bool)) : Nat × List String :=
  outcomes.foldl guardedStep (0, [])

/-- The loop shape of `build_character_sheets` / `build_animal_sheets` in
`build_sprite_sheets.py` and of `process_color` / `rebuild_sheets` in
`recolor_sprites.py`: the loop body has no `try`/`except`, so the first
raised exception propagates out of the loop and the remaining items are
never processed. -/
def unguarded_batch : List (Except String Bool) → Except String (Nat × List String)
  | [] => Except.ok (0, [])
  | o :: rest =>
    match o with
    | Except.error e => Except.error e
    | Except.ok b =>
      match unguarded_batch rest with
      | Except.error e => Except.error e
      | Except.ok (n, log) =>
          Except.ok (if b then n + 1 else n, (if b then "OK" else "EMPTY") :: log)

/-! ## Concrete inputs used by witnesses and counterexamples -/

/-- A 1-by-1 fully transparent RGBA cutout: every pixel is `(0, 0, 0, 0)`,
so its opaque bounding box is empty (`getbbox` returns `None`). -/
def fullyTransparent1x1 : Img := ⟨1, 1, fun _ _ => RGBA.clear⟩

/-- A 2-by-2 cutout whose only nonzero pixel sits at `(1, 1)`; its
bounding box is `(1, 1, 2, 2)`. -/
def cutout2x2 : Img :=
  ⟨2, 2, fun x y => if x = 1 ∧ y = 1 then ⟨0, 0, 0, 255⟩ else RGBA.clear⟩

/-- A subject frame map with exactly one absent file (row 0, column 1);
every present frame is 1-by-1. -/
def someFrames : Nat → Nat → Option Img :=
  fun r c =>
    if r = 0 ∧ c = 1 then none
    else some ⟨1, 1, fun _ _ => ⟨10, 20, 30, 255⟩⟩

/-- A 1-by-1 image holding the dark blue pixel `(0, 0, 17, 255)` (hue 240
degrees, saturation 1): the C5 counterexample input. -/
def bluePixelImg : RImg := ⟨1, 1, fun _ _ => (0, 0, 17, 255)⟩

/-! # Theorems -/

/-! ## C10: recoloring never alters transparency -/

/-- C10: for every input pixel and every target hue, saturation
multiplier and value multiplier, `recolor_pixel` returns the input's
alpha value unchanged, on rewritten pixels as well as pass-through
pixels. -/
theorem recolor_pixel_preserves_alpha (r g b a : Int) (th sb vb : ℚ) :
    (recolor_pixel r g b a th sb vb).2.2.2 = a := by
  unfold recolor_pixel
  split
  · rfl
  · split
    · rfl
    · rfl

/-! ## C4: pass-through outside the band is bit-identical -/

/-- C4: a pixel that is near-transparent (`a < 10`), or whose hue in
degrees lies outside `[170, 260]`, or whose saturation does not exceed
`0.15`, is returned bit-identical by `recolor_pixel`, for every target
hue and multipliers. -/
theorem recolor_pixel_passthrough (r g b a : Int) (th sb vb : ℚ)
    (h : a < 10 ∨ ¬((170 : ℚ) ≤ hueDegOf r g b ∧ hueDegOf r g b ≤ 260) ∨
      satOf r g b ≤ 0.15) :
    recolor_pixel r g b a th sb vb = (r, g, b, a) := by
  unfold recolor_pixel
  by_cases h10 : a < 10
  · rw [if_pos h10]
  · rw [if_neg h10, if_neg]
    rcases h with h | h | h
    · exact absurd h h10
    · intro hc
      exact h ⟨hc.1, hc.2.1⟩
    · intro hc
      have := hc.2.2
      rw [show BLUE_HUE_MIN = (170 : ℚ) from rfl] at hc
      exact absurd this (not_lt.mpr h)

/-- Witness for C4 at the opaque black pixel `(0, 0, 0, 255)`: its hue
is 0 degrees, outside the band, so it passes through for the red config. -/
theorem recolor_pixel_passthrough_witness :
    ((255 : Int) < 10 ∨ ¬((170 : ℚ) ≤ hueDegOf 0 0 0 ∧ hueDegOf 0 0 0 ≤ 260) ∨
      satOf 0 0 0 ≤ 0.15) ∧
    recolor_pixel 0 0 0 255 12 (11/10) (19/20) = (0, 0, 0, 255) := by
  have hh : hueDegOf 0 0 0 = 0 := by
    simp [hueDegOf, hsvOf, rgb_to_hsv, hsvMin, hsvMax]
  have hcond : ¬((170 : ℚ) ≤ hueDegOf 0 0 0 ∧ hueDegOf 0 0 0 ≤ 260) := by
    rw [hh]; norm_num
  exact ⟨Or.inr (Or.inl hcond),
    recolor_pixel_passthrough 0 0 0 255 12 (11/10) (19/20) (Or.inr (Or.inl hcond))⟩

/-! ## C9: the builder skips a subject exactly when its test frame
(front, frame 0) is absent -/

/-- C9: when the `front`/frame-0 test file of a subject is absent the
builder skips the subject entirely (no sheet, no missing count), even if
every other frame exists; when the test file is present a sheet is
always produced, regardless of which other frame files are absent. -/
theorem builder_skips_iff_test_frame_missing (R C : Nat)
    (frames : Nat → Nat → Option Img) :
    (frames 0 0 = none → build_subject R C frames = none) ∧
    (∀ f, frames 0 0 = some f →
      build_subject R C frames = some (buildSheet f.w f.h R C frames)) := by
  constructor
  · intro h
    unfold build_subject
    rw [h]
  · intro f h
    unfold build_subject
    rw [h]

/-- Witness for C9: a subject whose only absent file is the test frame
is skipped, and a subject with only the test frame present is built. -/
theorem builder_skips_witness :
    build_subject 4 3
        (fun r c => if r = 0 ∧ c = 0 then none else some (Img.blank 48 64)) = none ∧
    build_subject 4 3
        (fun r c => if r = 0 ∧ c = 0 then some (Img.blank 48 64) else none) ≠ none := by
  constructor
  · exact (builder_skips_iff_test_frame_missing 4 3 _).1 rfl
  · rw [(builder_skips_iff_test_frame_missing 4 3 _).2 (Img.blank 48 64) rfl]
    exact Option.some_ne_none _

/-! ## C8: error containment in the batch loops -/

/-- Folding the guarded loop from any accumulator splits off the
accumulator. -/
theorem guarded_batch_shift (L : List (Except String Bool)) :
    ∀ acc : Nat × List String,
      L.foldl guardedStep acc =
        (acc.1 + (guarded_batch L).1, acc.2 ++ (guarded_batch L).2) := by
  induction L with
  | nil => intro acc; simp [guarded_batch]
  | cons o L ih =>
    intro acc
    have hL : guarded_batch (o :: L) = (o :: L).foldl guardedStep (0, []) := rfl
    rw [List.foldl_cons, ih (guardedStep acc o), hL, List.foldl_cons,
      ih (guardedStep (0, []) o)]
    cases o with
    | error e => simp [guardedStep]
    | ok b =>
      cases b
      · simp [guardedStep]
      · simp [guardedStep]
        omega

/-- C8 (amended): in the loops of `process_all_sprites.py` and
`process_building_sprites.py` an item that raises is logged for that
item alone and every remaining item is still processed, so the loop
result is the two halves' results joined around the one error entry. -/
theorem guarded_batch_contains (pre post : List (Except String Bool)) (e : String) :
    guarded_batch (pre ++ Except.error e :: post) =
      ((guarded_batch pre).1 + (guarded_batch post).1,
        (guarded_batch pre).2 ++ ("ERROR: " ++ e) :: (guarded_batch post).2) := by
  show (pre ++ Except.error e :: post).foldl guardedStep (0, []) = _
  rw [List.foldl_append, List.foldl_cons]
  have hpre : pre.foldl guardedStep (0, []) = guarded_batch pre := rfl
  rw [hpre, guarded_batch_shift post (guardedStep (guarded_batch pre) (Except.error e))]
  simp [guardedStep]

/-- C8 counterexample: the sheet-assembly and recoloring loops
(`build_sprite_sheets.py`, `recolor_sprites.py`) have no `try`/`except`;
one raising item aborts the batch and the remaining items are never
processed, contradicting the claim that every batch loop contains
per-item exceptions. -/
theorem unguarded_batch_aborts :
    unguarded_batch [Except.ok true, Except.error "decode error", Except.ok true] =
      Except.error "decode error" := rfl

/-! ## C3: the normalizer does NOT skip fully transparent images -/

/-- C3 (code bug evidence): on a fully transparent input `getbbox`
returns `None`, so `process_sprite` skips the crop, keeps the nonzero
original dimensions, sails past the zero-size guard (the only path that
returns the skip signal), and produces a full target-size canvas instead
of skipping.  The claimed empty-box skip never fires for a fully
transparent image of positive size. -/
theorem normalizer_transparent_not_skipped :
    getbbox fullyTransparent1x1 = none ∧
    (processSprite fullyTransparent1x1 48 64).isSome = true ∧
    ((processSprite fullyTransparent1x1 48 64).map fun o => (o.w, o.h)) =
      some (48, 64) := by
  refine ⟨rfl, rfl, rfl⟩

/-! ## C6: pixelate preserves the image dimensions -/

/-- C6: for every image and every factor `f` in `(0, 1]`, `pixelate`
downsamples the bands independently to
`(max 1 (int (w * f)), max 1 (int (h * f)))` and upsamples back, so the
output always has exactly the input's dimensions (in particular at
factor 1). -/
theorem pixelate_preserves_dims (img : Img) (f : ℚ) (h0 : 0 < f) (h1 : f ≤ 1) :
    (pixelate img f).w = img.w ∧ (pixelate img f).h = img.h ∧
    pixelateSmall img f =
      (max 1 (pytrunc ((img.w : ℚ) * f)).toNat,
        max 1 (pytrunc ((img.h : ℚ) * f)).toNat) ∧
    1 ≤ (pixelateSmall img f).1 ∧ 1 ≤ (pixelateSmall img f).2 := by
  refine ⟨rfl, rfl, rfl, ?_, ?_⟩
  · exact le_max_left 1 _
  · exact le_max_left 1 _

/-- Witness for C6 at a concrete 48-by-64 blank image and factor `1/2`
(`PIXEL_FACTOR_CHAR = 0.5`). -/
theorem pixelate_preserves_dims_witness :
    ((0 : ℚ) < 1/2 ∧ (1/2 : ℚ) ≤ 1) ∧
    ((pixelate (Img.blank 48 64) (1/2)).w = (Img.blank 48 64).w ∧
      (pixelate (Img.blank 48 64) (1/2)).h = (Img.blank 48 64).h ∧
      pixelateSmall (Img.blank 48 64) (1/2) =
        (max 1 (pytrunc (((Img.blank 48 64).w : ℚ) * (1/2))).toNat,
          max 1 (pytrunc (((Img.blank 48 64).h : ℚ) * (1/2))).toNat) ∧
      1 ≤ (pixelateSmall (Img.blank 48 64) (1/2)).1 ∧
      1 ≤ (pixelateSmall (Img.blank 48 64) (1/2)).2) :=
  ⟨⟨by norm_num, by norm_num⟩,
    pixelate_preserves_dims (Img.blank 48 64) (1/2) (by norm_num) (by norm_num)⟩

/-! ## C7: palette quantization changes only RGB and keeps alpha -/

/-- C7: for every RGBA image and positive color limit, `quantize_colors`
returns the library-quantized RGB content re-merged with the input's
alpha band: the alpha channel is pixel-for-pixel the input's, dimensions
are kept, and (given the Pillow `quantize` contract that its output has
at most `max_colors` distinct colors on the same canvas) the result uses
at most `max_colors` distinct RGB colors. -/
theorem quantize_colors_alpha_and_palette (quantizeLib : CImg → Nat → CImg)
    (img : Img) (N : Int) (hN : 0 < N)
    (hdw : (quantizeLib img.rgbPart N.toNat).w = img.w)
    (hdh : (quantizeLib img.rgbPart N.toNat).h = img.h)
    (hpal : (quantizeLib img.rgbPart N.toNat).colorCount ≤ N.toNat) :
    (quantize_colors quantizeLib img N).w = img.w ∧
    (quantize_colors quantizeLib img N).h = img.h ∧
    (∀ x y, ((quantize_colors quantizeLib img N).pix x y).a = (img.pix x y).a) ∧
    (quantize_colors quantizeLib img N).rgbPart.colorCount ≤ N.toNat := by
  have hne : ¬ N ≤ 0 := not_le.mpr hN
  unfold quantize_colors
  rw [if_neg hne]
  refine ⟨hdw, hdh, fun x y => rfl, ?_⟩
  have : (mergeWithAlpha (quantizeLib img.rgbPart N.toNat) img.chanA).rgbPart =
      quantizeLib img.rgbPart N.toNat := rfl
  rw [this]
  exact hpal

/-- Witness for C7: a concrete 2-by-1 image, `MAX_COLORS = 32`, and a
library stand-in that satisfies the quantize contract by returning a
single-color canvas of the same size. -/
theorem quantize_colors_witness :
    ((0 : Int) < 32 ∧
      ((fun (c : CImg) (_ : Nat) => CImg.mk c.w c.h fun _ _ => (1, 2, 3))
          (Img.mk 2 1 fun _ _ => ⟨9, 9, 9, 7⟩).rgbPart (32 : Int).toNat).colorCount ≤
        (32 : Int).toNat) ∧
    (∀ x y, ((quantize_colors (fun c _ => CImg.mk c.w c.h fun _ _ => (1, 2, 3))
        (Img.mk 2 1 fun _ _ => ⟨9, 9, 9, 7⟩) 32).pix x y).a =
      ((Img.mk 2 1 fun _ _ => ⟨9, 9, 9, 7⟩).pix x y).a) :=
  ⟨⟨by decide, by decide⟩,
    (quantize_colors_alpha_and_palette (fun c _ => CImg.mk c.w c.h fun _ _ => (1, 2, 3))
      (Img.mk 2 1 fun _ _ => ⟨9, 9, 9, 7⟩) 32 (by decide) rfl rfl (by decide)).2.2.1⟩

/-! ## C2: the normalizer's geometry -/

/-- A `min?` result is a lower bound of the list. -/
theorem natList_min?_le {l : List Nat} {a b : Nat} (h : l.min? = some a)
    (hb : b ∈ l) : a ≤ b := by
  rw [List.min?_eq_some_iff] at h
  · exact h.2 b hb
  · exact fun x => Nat.le_refl x
  · exact fun x y => min_choice x y
  · exact fun x y z => le_min_iff

/-- A `max?` result is a member of the list. -/
theorem natList_max?_mem {l : List Nat} {a : Nat} (h : l.max? = some a) : a ∈ l :=
  List.max?_mem (fun x y => max_choice x y) h

/-- A bounding box returned by `getbbox` is a nonempty rectangle. -/
theorem getbbox_lt {img : Img} {l u r d : Nat}
    (hb : getbbox img = some (l, u, r, d)) : l < r ∧ u < d := by
  unfold getbbox at hb
  split at hb
  · rename_i l' r' u' d' h1 h2 h3 h4
    have e : l' = l ∧ u' = u ∧ r' + 1 = r ∧ d' + 1 = d := by
      simpa using hb
    have hlr : l' ≤ r' := natList_min?_le h1 (natList_max?_mem h2)
    have hud : u' ≤ d' := natList_min?_le h3 (natList_max?_mem h4)
    omega
  · exact absurd hb (by simp)

/-- C2: on a cutout with a non-empty bounding box and positive target
size, the normalizer output is exactly the target-size canvas,
transparent except for the bounding-box crop scaled to `(nw, nh)` with
`nw = max 1 (int (w * ratio))`, `nh = max 1 (int (h * ratio))`, where
`ratio` is the largest scale at which both scaled dimensions fit in the
target; the content is pasted at x offset `(tw - nw) / 2` (horizontally
centered) and y offset `th - nh` (bottom-anchored). -/
theorem normalizer_correct (img : Img) (tw th l u r d : Nat)
    (htw : 0 < tw) (hth : 0 < th)
    (hbb : getbbox img = some (l, u, r, d)) :
    ∀ c, c = crop img (l, u, r, d) →
    ∃ out, processSprite img tw th = some out ∧
      out.w = tw ∧ out.h = th ∧
      1 ≤ fitW c tw th ∧ fitW c tw th ≤ tw ∧
      1 ≤ fitH c tw th ∧ fitH c tw th ≤ th ∧
      (∀ q : ℚ, 0 ≤ q →
        (((c.w : ℚ) * q ≤ tw ∧ (c.h : ℚ) * q ≤ th) ↔ q ≤ fitRatio c tw th)) ∧
      (∀ X, X < tw → ∀ Y, Y < th →
        ((tw - fitW c tw th) / 2 ≤ X ∧
            X < (tw - fitW c tw th) / 2 + fitW c tw th ∧
            th - fitH c tw th ≤ Y →
          out.pix X Y =
            blendPixel RGBA.clear
              ((resizeNearest c (fitW c tw th) (fitH c tw th)).pix
                (X - (tw - fitW c tw th) / 2) (Y - (th - fitH c tw th)))) ∧
        (¬((tw - fitW c tw th) / 2 ≤ X ∧
            X < (tw - fitW c tw th) / 2 + fitW c tw th ∧
            th - fitH c tw th ≤ Y) →
          out.pix X Y = RGBA.clear)) := by
  intro c hc
  obtain ⟨hlr, hud⟩ := getbbox_lt hbb
  have hcw0 : 0 < c.w := by rw [hc]; show 0 < r - l; omega
  have hch0 : 0 < c.h := by rw [hc]; show 0 < d - u; omega
  have hcwQ : (0 : ℚ) < (c.w : ℚ) := by exact_mod_cast hcw0
  have hchQ : (0 : ℚ) < (c.h : ℚ) := by exact_mod_cast hch0
  have hρ0 : 0 ≤ fitRatio c tw th :=
    le_min (div_nonneg (Nat.cast_nonneg tw) (Nat.cast_nonneg c.w))
      (div_nonneg (Nat.cast_nonneg th) (Nat.cast_nonneg c.h))
  have hwρ : (c.w : ℚ) * fitRatio c tw th ≤ tw := by
    calc (c.w : ℚ) * fitRatio c tw th
        ≤ (c.w : ℚ) * ((tw : ℚ) / c.w) :=
          mul_le_mul_of_nonneg_left (min_le_left _ _) (Nat.cast_nonneg c.w)
      _ = tw := by field_simp
  have hhρ : (c.h : ℚ) * fitRatio c tw th ≤ th := by
    calc (c.h : ℚ) * fitRatio c tw th
        ≤ (c.h : ℚ) * ((th : ℚ) / c.h) :=
          mul_le_mul_of_nonneg_left (min_le_right _ _) (Nat.cast_nonneg c.h)
      _ = th := by field_simp
  have hwtr : pytrunc ((c.w : ℚ) * fitRatio c tw th) =
      ⌊(c.w : ℚ) * fitRatio c tw th⌋ :=
    if_pos (mul_nonneg (Nat.cast_nonneg _) hρ0)
  have hhtr : pytrunc ((c.h : ℚ) * fitRatio c tw th) =
      ⌊(c.h : ℚ) * fitRatio c tw th⌋ :=
    if_pos (mul_nonneg (Nat.cast_nonneg _) hρ0)
  have hnwle : fitW c tw th ≤ tw := by
    unfold fitW
    rw [hwtr]
    refine max_le htw (Int.toNat_le.mpr ?_)
    have := Int.floor_le_floor hwρ
    rwa [Int.floor_natCast] at this
  have hnhle : fitH c tw th ≤ th := by
    unfold fitH
    rw [hhtr]
    refine max_le hth (Int.toNat_le.mpr ?_)
    have := Int.floor_le_floor hhρ
    rwa [Int.floor_natCast] at this
  have hnw1 : 1 ≤ fitW c tw th := le_max_left 1 _
  have hnh1 : 1 ≤ fitH c tw th := le_max_left 1 _
  have hiff : ∀ q : ℚ, 0 ≤ q →
      (((c.w : ℚ) * q ≤ tw ∧ (c.h : ℚ) * q ≤ th) ↔ q ≤ fitRatio c tw th) := by
    intro q _
    have e1 : q ≤ (tw : ℚ) / c.w ↔ (c.w : ℚ) * q ≤ tw := by
      rw [le_div_iff₀ hcwQ, mul_comm]
    have e2 : q ≤ (th : ℚ) / c.h ↔ (c.h : ℚ) * q ≤ th := by
      rw [le_div_iff₀ hchQ, mul_comm]
    unfold fitRatio
    rw [le_min_iff, e1, e2]
  have hps : processSprite img tw th =
      some (pasteMask (Img.blank tw th)
        (resizeNearest c (fitW c tw th) (fitH c tw th))
        (Int.fdiv ((tw : Int) - (fitW c tw th : Int)) 2)
        ((th : Int) - (fitH c tw th : Int))) := by
    unfold processSprite
    rw [hbb]
    dsimp only
    rw [← hc]
    rw [if_neg (by omega)]
  refine ⟨_, hps, rfl, rfl, hnw1, hnwle, hnh1, hnhle, hiff, ?_⟩
  intro X hX Y hY
  have hox : Int.fdiv ((tw : Int) - (fitW c tw th : Int)) 2 =
      (((tw - fitW c tw th) / 2 : Nat) : Int) := by
    rw [Int.fdiv_eq_ediv _ (by omega)]
    omega
  have hoy : ((th : Int) - (fitH c tw th : Int)) =
      (((th - fitH c tw th : Nat)) : Int) := by omega
  constructor
  · intro hreg
    show (if X < tw ∧ Y < th ∧ _ ∧ _ ∧ _ ∧ _ then _ else _) = _
    rw [if_pos]
    · have ex : ((X : Int) - Int.fdiv ((tw : Int) - (fitW c tw th : Int)) 2).toNat =
          X - (tw - fitW c tw th) / 2 := by
        rw [hox]; omega
      have ey : ((Y : Int) - ((th : Int) - (fitH c tw th : Int))).toNat =
          Y - (th - fitH c tw th) := by
        rw [hoy]; omega
      rw [ex, ey]
      rfl
    · refine ⟨hX, hY, ?_, ?_, ?_, ?_⟩
      · rw [hox]; omega
      · show (X : Int) <
          Int.fdiv ((tw : Int) - (fitW c tw th : Int)) 2 +
            (resizeNearest c (fitW c tw th) (fitH c tw th)).w
        rw [hox]
        show (X : Int) < _ + (fitW c tw th : Int)
        omega
      · rw [hoy]; omega
      · show (Y : Int) <
          ((th : Int) - (fitH c tw th : Int)) +
            (resizeNearest c (fitW c tw th) (fitH c tw th)).h
        rw [hoy]
        show (Y : Int) < _ + (fitH c tw th : Int)
        omega
  · intro hreg
    show (if X < tw ∧ Y < th ∧ _ ∧ _ ∧ _ ∧ _ then _ else _) = _
    rw [if_neg]
    · rfl
    · intro hcond
      obtain ⟨-, -, c1, c2, c3, c4⟩ := hcond
      rw [hox] at c1 c2
      rw [hoy] at c3
      refine hreg ⟨by omega, ?_, by omega⟩
      have c2' : (X : Int) < (((tw - fitW c tw th) / 2 : Nat) : Int) +
          (fitW c tw th : Int) := by
        exact_mod_cast c2
      omega

/-- Witness for C2 on the concrete 2-by-2 cutout and the character
target size 48-by-64. -/
theorem normalizer_correct_witness :
    (0 < 48 ∧ 0 < 64 ∧ getbbox cutout2x2 = some (1, 1, 2, 2)) ∧
    ∃ out, processSprite cutout2x2 48 64 = some out ∧ out.w = 48 ∧ out.h = 64 := by
  refine ⟨⟨by norm_num, by norm_num, by decide⟩, ?_⟩
  obtain ⟨out, h1, h2, h3, -⟩ :=
    normalizer_correct cutout2x2 48 64 1 1 2 2 (by norm_num) (by norm_num)
      (by decide) (crop cutout2x2 (1, 1, 2, 2)) rfl
  exact ⟨out, h1, h2, h3⟩

/-! ## C1: sheet assembly geometry, pasted slots, missing counter -/

/-- The frame actually pasted always has the canonical width. -/
theorem normFrame_w (fw fh : Nat) (f : Img) : (normFrame fw fh f).w = fw := by
  unfold normFrame
  split
  · rename_i h
    exact h.1
  · rfl

/-- The frame actually pasted always has the canonical height. -/
theorem normFrame_h (fw fh : Nat) (f : Img) : (normFrame fw fh f).h = fh := by
  unfold normFrame
  split
  · rename_i h
    exact h.2
  · rfl

/-- One assembly step keeps the canvas dimensions. -/
theorem assembleStep_dims (fw fh : Nat) (frames : Nat → Nat → Option Img)
    (acc : Img × Nat) (rc : Nat × Nat) :
    (assembleStep fw fh frames acc rc).1.w = acc.1.w ∧
    (assembleStep fw fh frames acc rc).1.h = acc.1.h := by
  cases hf : frames rc.1 rc.2 <;> simp [assembleStep, hf, pasteMask]

/-- The whole assembly fold keeps the canvas dimensions. -/
theorem foldl_assemble_dims (fw fh : Nat) (frames : Nat → Nat → Option Img)
    (L : List (Nat × Nat)) :
    ∀ acc : Img × Nat,
      (L.foldl (assembleStep fw fh frames) acc).1.w = acc.1.w ∧
      (L.foldl (assembleStep fw fh frames) acc).1.h = acc.1.h := by
  induction L with
  | nil => intro acc; exact ⟨rfl, rfl⟩
  | cons rc L ih =>
    intro acc
    rw [List.foldl_cons]
    have h1 := ih (assembleStep fw fh frames acc rc)
    have h2 := assembleStep_dims fw fh frames acc rc
    exact ⟨h1.1.trans h2.1, h1.2.trans h2.2⟩

/-- The assembly fold adds one to the counter for exactly the slots whose
frame is absent. -/
theorem foldl_assemble_count (fw fh : Nat) (frames : Nat → Nat → Option Img)
    (L : List (Nat × Nat)) :
    ∀ acc : Img × Nat,
      (L.foldl (assembleStep fw fh frames) acc).2 =
        acc.2 + (L.filter fun rc => (frames rc.1 rc.2).isNone).length := by
  induction L with
  | nil => intro acc; simp
  | cons rc L ih =>
    intro acc
    rw [List.foldl_cons, ih]
    cases hf : frames rc.1 rc.2 with
    | none =>
      have hstep : (assembleStep fw fh frames acc rc).2 = acc.2 + 1 := by
        simp [assembleStep, hf]
      rw [hstep, List.filter_cons]
      simp [hf]
      omega
    | some f =>
      have hstep : (assembleStep fw fh frames acc rc).2 = acc.2 := by
        simp [assembleStep, hf]
      rw [hstep, List.filter_cons]
      simp [hf]

/-- Slots other than `(r, c)` never touch the pixels of slot `(r, c)`:
folding the assembly step over a list avoiding `(r, c)` leaves that
slot's pixels unchanged. -/
theorem foldl_assemble_untouched (fw fh : Nat) (hfw : 0 < fw) (hfh : 0 < fh)
    (frames : Nat → Nat → Option Img) (L : List (Nat × Nat)) :
    ∀ (acc : Img × Nat) (r c x y : Nat), x < fw → y < fh → (r, c) ∉ L →
      (L.foldl (assembleStep fw fh frames) acc).1.pix (c * fw + x) (r * fh + y) =
        acc.1.pix (c * fw + x) (r * fh + y) := by
  induction L with
  | nil => intro acc r c x y hx hy hmem; rfl
  | cons rc L ih =>
    intro acc r c x y hx hy hmem
    rw [List.foldl_cons]
    rw [ih _ r c x y hx hy (fun h => hmem (List.mem_cons_of_mem _ h))]
    obtain ⟨r', c'⟩ := rc
    have hne : (r, c) ≠ (r', c') := fun h => hmem (h ▸ List.mem_cons_self _ _)
    cases hf : frames r' c' with
    | none => simp [assembleStep, hf]
    | some f =>
      show (assembleStep fw fh frames acc (r', c')).1.pix (c * fw + x) (r * fh + y) =
        acc.1.pix (c * fw + x) (r * fh + y)
      simp only [assembleStep, hf]
      show (pasteMask acc.1 (normFrame fw fh f) _ _).pix _ _ = _
      unfold pasteMask
      dsimp only
      rw [normFrame_w fw fh f, normFrame_h fw fh f]
      rw [if_neg]
      intro hcond
      obtain ⟨-, -, h3, h4, h5, h6⟩ := hcond
      have h3' : c' * fw ≤ c * fw + x := by exact_mod_cast h3
      have h4' : c * fw + x < c' * fw + fw := by exact_mod_cast h4
      have h5' : r' * fh ≤ r * fh + y := by exact_mod_cast h5
      have h6' : r * fh + y < r' * fh + fh := by exact_mod_cast h6
      have hcc : c = c' := by
        by_contra hne2
        rcases Nat.lt_or_ge c c' with hlt | hge
        · have h7 : (c + 1) * fw ≤ c' * fw := Nat.mul_le_mul_right fw hlt
          rw [Nat.succ_mul] at h7
          omega
        · have hgt : c' < c := by omega
          have h7 : (c' + 1) * fw ≤ c * fw := Nat.mul_le_mul_right fw hgt
          rw [Nat.succ_mul] at h7
          omega
      have hrr : r = r' := by
        by_contra hne2
        rcases Nat.lt_or_ge r r' with hlt | hge
        · have h7 : (r + 1) * fh ≤ r' * fh := Nat.mul_le_mul_right fh hlt
          rw [Nat.succ_mul] at h7
          omega
        · have hgt : r' < r := by omega
          have h7 : (r' + 1) * fh ≤ r * fh := Nat.mul_le_mul_right fh hgt
          rw [Nat.succ_mul] at h7
          omega
      exact hne (by rw [hcc, hrr])

/-- Membership in the slot grid. -/
theorem mem_slots {R C r c : Nat} : (r, c) ∈ slots R C ↔ r < R ∧ c < C := by
  simp [slots, List.mem_flatMap, List.mem_map, List.mem_range, Prod.mk.injEq]

/-- The slot grid lists every slot exactly once. -/
theorem nodup_slots (R C : Nat) : (slots R C).Nodup := by
  refine List.nodup_flatMap.mpr ⟨?_, ?_⟩
  · intro r hr
    refine List.Nodup.map ?_ (List.nodup_range C)
    intro a b h
    injection h
  · refine List.Pairwise.imp ?_ (List.pairwise_lt_range R)
    intro r1 r2 hlt p hp1 hp2
    simp only [Function.onFun, List.mem_map, List.mem_range] at hp1 hp2
    obtain ⟨c1, -, rfl⟩ := hp1
    obtain ⟨c2, -, he⟩ := hp2
    have : r2 = r1 := congrArg Prod.fst he
    omega

/-- A member of a duplicate-free list splits it with the member in
neither half. -/
theorem nodup_split {α : Type} {l : List α} {a : α}
    (hnd : l.Nodup) (ha : a ∈ l) :
    ∃ s t, l = s ++ a :: t ∧ a ∉ s ∧ a ∉ t := by
  obtain ⟨s, t, rfl⟩ := List.append_of_mem ha
  rw [List.nodup_append] at hnd
  refine ⟨s, t, rfl, ?_, (List.nodup_cons.mp hnd.2.1).1⟩
  intro hs
  exact (hnd.2.2 hs) (List.mem_cons_self a t)

/-- The pixel content of slot `(r, c)` in a finished sheet: the slot's
frame (normalized to the canonical size) pasted over the transparent
canvas when the frame file exists, transparent otherwise. -/
theorem buildSheet_slot (fw fh R C : Nat) (hfw : 0 < fw) (hfh : 0 < fh)
    (frames : Nat → Nat → Option Img) (r c : Nat) (hr : r < R) (hc : c < C)
    (x y : Nat) (hx : x < fw) (hy : y < fh) :
    (buildSheet fw fh R C frames).1.pix (c * fw + x) (r * fh + y) =
      (frames r c).elim RGBA.clear
        (fun f => blendPixel RGBA.clear ((normFrame fw fh f).pix x y)) := by
  have hmem : (r, c) ∈ slots R C := mem_slots.mpr ⟨hr, hc⟩
  obtain ⟨s, t, hst, hns, hnt⟩ := nodup_split (nodup_slots R C) hmem
  show ((slots R C).foldl (assembleStep fw fh frames)
    (Img.blank (fw * C) (fh * R), 0)).1.pix _ _ = _
  rw [hst, List.foldl_append, List.foldl_cons]
  rw [foldl_assemble_untouched fw fh hfw hfh frames t _ r c x y hx hy hnt]
  have hmidpix : (s.foldl (assembleStep fw fh frames)
      (Img.blank (fw * C) (fh * R), 0)).1.pix (c * fw + x) (r * fh + y) =
      RGBA.clear :=
    foldl_assemble_untouched fw fh hfw hfh frames s _ r c x y hx hy hns
  have hmw : (s.foldl (assembleStep fw fh frames)
      (Img.blank (fw * C) (fh * R), 0)).1.w = fw * C :=
    (foldl_assemble_dims fw fh frames s _).1
  have hmh : (s.foldl (assembleStep fw fh frames)
      (Img.blank (fw * C) (fh * R), 0)).1.h = fh * R :=
    (foldl_assemble_dims fw fh frames s _).2
  cases hf : frames r c with
  | none =>
    simp only [assembleStep, hf, Option.elim]
    exact hmidpix
  | some f =>
    simp only [assembleStep, hf, Option.elim]
    show (pasteMask _ (normFrame fw fh f) _ _).pix _ _ = _
    unfold pasteMask
    dsimp only
    rw [normFrame_w fw fh f, normFrame_h fw fh f, hmw, hmh]
    have hXw : c * fw + x < fw * C := by
      have h7 : (c + 1) * fw ≤ C * fw := Nat.mul_le_mul_right fw hc
      rw [Nat.succ_mul] at h7
      have hcomm : C * fw = fw * C := Nat.mul_comm C fw
      omega
    have hYh : r * fh + y < fh * R := by
      have h7 : (r + 1) * fh ≤ R * fh := Nat.mul_le_mul_right fh hr
      rw [Nat.succ_mul] at h7
      have hcomm : R * fh = fh * R := Nat.mul_comm R fh
      omega
    rw [if_pos]
    · rw [hmidpix]
      have ex : (((c * fw + x : Nat) : Int) - ((c * fw : Nat) : Int)).toNat = x := by
        omega
      have ey : (((r * fh + y : Nat) : Int) - ((r * fh : Nat) : Int)).toNat = y := by
        omega
      rw [ex, ey]
    · refine ⟨hXw, hYh, ?_, ?_, ?_, ?_⟩
      · exact_mod_cast Nat.le_add_right (c * fw) x
      · exact_mod_cast (by omega : c * fw + x < c * fw + fw)
      · exact_mod_cast Nat.le_add_right (r * fh) y
      · exact_mod_cast (by omega : r * fh + y < r * fh + fh)

/-- C1: for positive canonical frame size, the assembled sheet canvas is
exactly `fw*C` by `fh*R`; the missing counter equals exactly the number
of absent frame files; every present canonical-size frame is pasted
(alpha-masked over the transparent canvas) at offset `(col*fw, row*fh)`;
and every pixel of a missing slot has alpha 0. -/
theorem sheet_assembler_correct (fw fh R C : Nat) (hfw : 0 < fw) (hfh : 0 < fh)
    (frames : Nat → Nat → Option Img) :
    (buildSheet fw fh R C frames).1.w = fw * C ∧
    (buildSheet fw fh R C frames).1.h = fh * R ∧
    (buildSheet fw fh R C frames).2 = missingCount R C frames ∧
    (∀ r, r < R → ∀ c, c < C → ∀ x, x < fw → ∀ y, y < fh →
      (∀ f, frames r c = some f → f.w = fw → f.h = fh →
        (buildSheet fw fh R C frames).1.pix (c * fw + x) (r * fh + y) =
          blendPixel RGBA.clear (f.pix x y)) ∧
      (frames r c = none →
        ((buildSheet fw fh R C frames).1.pix (c * fw + x) (r * fh + y)).a = 0)) := by
  refine ⟨(foldl_assemble_dims fw fh frames (slots R C) _).1,
    (foldl_assemble_dims fw fh frames (slots R C) _).2, ?_, ?_⟩
  · show ((slots R C).foldl (assembleStep fw fh frames) (Img.blank _ _, 0)).2 = _
    rw [foldl_assemble_count fw fh frames (slots R C) _]
    show 0 + _ = _
    rw [Nat.zero_add]
    rfl
  · intro r hr c hc x hx y hy
    have hs := buildSheet_slot fw fh R C hfw hfh frames r c hr hc x y hx hy
    constructor
    · intro f hf hfwq hfhq
      rw [hf] at hs
      simp only [Option.elim] at hs
      rw [hs]
      have hnf : normFrame fw fh f = f := by
        unfold normFrame
        rw [if_pos ⟨hfwq, hfhq⟩]
      rw [hnf]
    · intro hf
      rw [hf] at hs
      simp only [Option.elim] at hs
      rw [hs]
      rfl

/-- Witness for C1 on a 4-direction, 3-column subject with exactly one
frame file absent (row 0, column 1): dimensions, the missing counter,
one pasted slot, and the transparent missing slot, all at frame size
1-by-1. -/
theorem sheet_assembler_witness :
    (0 < 1 ∧ someFrames 0 1 = none ∧
      someFrames 0 0 = some ⟨1, 1, fun _ _ => ⟨10, 20, 30, 255⟩⟩) ∧
    (buildSheet 1 1 4 3 someFrames).1.w = 1 * 3 ∧
    (buildSheet 1 1 4 3 someFrames).2 = missingCount 4 3 someFrames ∧
    (buildSheet 1 1 4 3 someFrames).1.pix (0 * 1 + 0) (0 * 1 + 0) =
      blendPixel RGBA.clear ((⟨1, 1, fun _ _ => ⟨10, 20, 30, 255⟩⟩ : Img).pix 0 0) ∧
    ((buildSheet 1 1 4 3 someFrames).1.pix (1 * 1 + 0) (0 * 1 + 0)).a = 0 := by
  have h := sheet_assembler_correct 1 1 4 3 (by decide) (by decide) someFrames
  refine ⟨⟨by decide, rfl, rfl⟩, h.1, h.2.2.1, ?_, ?_⟩
  · exact (h.2.2.2 0 (by decide) 0 (by decide) 0 (by decide) 0 (by decide)).1
      ⟨1, 1, fun _ _ => ⟨10, 20, 30, 255⟩⟩ rfl rfl rfl
  · exact (h.2.2.2 0 (by decide) 1 (by decide) 0 (by decide) 0 (by decide)).2 rfl

/-! ## C5: applying the recolorizer twice

The claim as stated quantifies over every config whose target hue lies
outside the source band.  It fails near the band boundary: with target
hue 169 (outside `[170, 260]`) the integer rounding of the rewritten
channels can push the recomputed hue back to exactly 170, inside the
band, so a second pass rewrites again and changes the pixel.  The
amended claim restricts to configs whose target hue lies in `[0, 60)`
degrees, as the shipped red (12) and orange (30) configs do. -/

/-- `recolor_pixel` on a pixel that satisfies the rewrite condition. -/

theorem recolor_pixel_rewrite (r g b a : Int) (th sb vb : ℚ)
    (ha : ¬ a < 10)
    (hband : BLUE_HUE_MIN ≤ hueDegOf r g b ∧ hueDegOf r g b ≤ BLUE_HUE_MAX ∧
      (0.15 : ℚ) < satOf r g b) :
    recolor_pixel r g b a th sb vb =
      (pytrunc ((hsv_to_rgb (th / 360) (min 1 (satOf r g b * sb))
          (min 1 (valOf r g b * vb))).1 * 255),
        pytrunc ((hsv_to_rgb (th / 360) (min 1 (satOf r g b * sb))
          (min 1 (valOf r g b * vb))).2.1 * 255),
        pytrunc ((hsv_to_rgb (th / 360) (min 1 (satOf r g b * sb))
          (min 1 (valOf r g b * vb))).2.2 * 255),
        a) := by
  unfold recolor_pixel
  rw [if_neg ha, if_pos hband]

theorem ev_hsv_1 : hsvOf 0 0 17 = (2/3, 1, 17/255) := by
  have hc0 : ((0 : Int) : ℚ) / 255 = 0 := by norm_num
  have hc17 : ((17 : Int) : ℚ) / 255 = 17/255 := by norm_num
  unfold hsvOf
  rw [hc0, hc17]
  have hM : hsvMax 0 0 (17/255) = 17/255 := by
    unfold hsvMax
    rw [max_eq_right (le_max_left (0:ℚ) (17/255)),
      max_eq_right (by norm_num : (0:ℚ) ≤ 17/255)]
  have hm : hsvMin 0 0 (17/255) = 0 := by
    unfold hsvMin
    rw [min_eq_left (le_min (le_refl (0:ℚ)) (by norm_num : (0:ℚ) ≤ 17/255))]
  have h6 : hueSix 0 0 (17/255) = 4 := by
    unfold hueSix
    rw [hM, hm]
    rw [if_neg (by norm_num : ¬ ((0:ℚ) = 17/255)),
      if_neg (by norm_num : ¬ ((0:ℚ) = 17/255))]
    norm_num
  unfold rgb_to_hsv
  rw [hM, hm, h6]
  rw [if_neg (by norm_num : ¬ ((0:ℚ) = 17/255))]
  norm_num [Int.fract]

theorem ev_hsv_2 : hsvOf 0 18 15 = (17/36, 1, 18/255) := by
  have hc0 : ((0 : Int) : ℚ) / 255 = 0 := by norm_num
  have hc18 : ((18 : Int) : ℚ) / 255 = 18/255 := by norm_num
  have hc15 : ((15 : Int) : ℚ) / 255 = 15/255 := by norm_num
  unfold hsvOf
  rw [hc0, hc18, hc15]
  have hM : hsvMax 0 (18/255) (15/255) = 18/255 := by
    unfold hsvMax
    rw [max_eq_left (by norm_num : (15:ℚ)/255 ≤ 18/255),
      max_eq_right (by norm_num : (0:ℚ) ≤ 18/255)]
  have hm : hsvMin 0 (18/255) (15/255) = 0 := by
    unfold hsvMin
    rw [min_eq_right (by norm_num : (15:ℚ)/255 ≤ 18/255),
      min_eq_left (by norm_num : (0:ℚ) ≤ 15/255)]
  have h6 : hueSix 0 (18/255) (15/255) = 17/6 := by
    unfold hueSix
    rw [hM, hm]
    rw [if_neg (by norm_num : ¬ ((0:ℚ) = 18/255)),
      if_pos (rfl : (18:ℚ)/255 = 18/255)]
    norm_num
  unfold rgb_to_hsv
  rw [hM, hm, h6]
  rw [if_neg (by norm_num : ¬ ((0:ℚ) = 18/255))]
  norm_num [Int.fract]

theorem ev_i169 : hsvI (169/360) = 2 := by
  unfold hsvI pytrunc
  rw [if_pos (by norm_num : (0:ℚ) ≤ 169/360 * 6)]
  norm_num

theorem ev_f169 : hsvF (169/360) = 49/60 := by
  unfold hsvF
  rw [ev_i169]
  norm_num

theorem ev_hsvrgb_sector2 (v : ℚ) :
    hsv_to_rgb (169/360) 1 v = (0, v, v * (49/60)) := by
  unfold hsv_to_rgb
  rw [if_neg (by norm_num : ¬ ((1:ℚ) = 0))]
  rw [ev_i169]
  rw [if_neg (by decide : ¬ ((2:Int) % 6 = 0)),
    if_neg (by decide : ¬ ((2:Int) % 6 = 1)),
    if_pos (by decide : ((2:Int) % 6 = 2))]
  unfold hsvP hsvT
  rw [ev_f169]
  norm_num

theorem ev_pass1 : recolor_pixel 0 0 17 255 169 1 (11/10) = (0, 18, 15, 255) := by
  have hsat : satOf 0 0 17 = 1 := by unfold satOf; rw [ev_hsv_1]
  have hval : valOf 0 0 17 = 17/255 := by unfold valOf; rw [ev_hsv_1]
  have hhue : hueDegOf 0 0 17 = 240 := by
    unfold hueDegOf
    rw [ev_hsv_1]
    norm_num
  rw [recolor_pixel_rewrite 0 0 17 255 169 1 (11/10) (by norm_num)
    ⟨by rw [hhue]; norm_num [BLUE_HUE_MIN], by rw [hhue]; norm_num [BLUE_HUE_MAX],
      by rw [hsat]; norm_num⟩]
  rw [hsat, hval]
  rw [show min 1 ((1:ℚ) * 1) = 1 by norm_num]
  rw [show min 1 ((17:ℚ)/255 * (11/10)) = 187/2550 by
    rw [show (17:ℚ)/255 * (11/10) = 187/2550 by norm_num]
    rw [min_eq_right (by norm_num : (187:ℚ)/2550 ≤ 1)]]
  rw [ev_hsvrgb_sector2]
  unfold pytrunc
  rw [if_pos (by norm_num : (0:ℚ) ≤ 0 * 255),
    if_pos (by norm_num : (0:ℚ) ≤ 187/2550 * 255),
    if_pos (by norm_num : (0:ℚ) ≤ 187/2550 * (49/60) * 255)]
  norm_num

theorem ev_pass2 : recolor_pixel 0 18 15 255 169 1 (11/10) = (0, 19, 16, 255) := by
  have hsat : satOf 0 18 15 = 1 := by unfold satOf; rw [ev_hsv_2]
  have hval : valOf 0 18 15 = 18/255 := by unfold valOf; rw [ev_hsv_2]
  have hhue : hueDegOf 0 18 15 = 170 := by
    unfold hueDegOf
    rw [ev_hsv_2]
    norm_num
  rw [recolor_pixel_rewrite 0 18 15 255 169 1 (11/10) (by norm_num)
    ⟨by rw [hhue]; norm_num [BLUE_HUE_MIN], by rw [hhue]; norm_num [BLUE_HUE_MAX],
      by rw [hsat]; norm_num⟩]
  rw [hsat, hval]
  rw [show min 1 ((1:ℚ) * 1) = 1 by norm_num]
  rw [show min 1 ((18:ℚ)/255 * (11/10)) = 198/2550 by
    rw [show (18:ℚ)/255 * (11/10) = 198/2550 by norm_num]
    rw [min_eq_right (by norm_num : (198:ℚ)/2550 ≤ 1)]]
  rw [ev_hsvrgb_sector2]
  unfold pytrunc
  rw [if_pos (by norm_num : (0:ℚ) ≤ 0 * 255),
    if_pos (by norm_num : (0:ℚ) ≤ 198/2550 * 255),
    if_pos (by norm_num : (0:ℚ) ≤ 198/2550 * (49/60) * 255)]
  norm_num

/-- C5 counterexample: the config `(target_hue 169, sat_boost 1,
val_boost 1.1)` has its target hue outside the source band `[170, 260]`,
yet on the 1-by-1 image holding `(0, 0, 17, 255)` the first recolor pass
produces `(0, 18, 15, 255)`, whose recomputed hue is exactly 170 degrees
(back inside the band), so the second pass rewrites it again to
`(0, 19, 16, 255)`: applying the transform twice does not equal applying
it once. -/
theorem recolor_twice_counterexample :
    ((169 : ℚ) < 170) ∧
    (recolor_image (recolor_image bluePixelImg 169 1 (11/10)) 169 1 (11/10)).pix 0 0 ≠
      (recolor_image bluePixelImg 169 1 (11/10)).pix 0 0 := by
  have hp : (recolor_image bluePixelImg 169 1 (11/10)).pix 0 0 = (0, 18, 15, 255) := by
    show recolor_pixel 0 0 17 255 169 1 (11/10) = (0, 18, 15, 255)
    exact ev_pass1
  refine ⟨by norm_num, ?_⟩
  show recolor_pixel ((recolor_image bluePixelImg 169 1 (11/10)).pix 0 0).1
      ((recolor_image bluePixelImg 169 1 (11/10)).pix 0 0).2.1
      ((recolor_image bluePixelImg 169 1 (11/10)).pix 0 0).2.2.1
      ((recolor_image bluePixelImg 169 1 (11/10)).pix 0 0).2.2.2
      169 1 (11/10) ≠ (recolor_image bluePixelImg 169 1 (11/10)).pix 0 0
  rw [hp]
  rw [ev_pass2]
  decide


theorem rgb_to_hsv_sv_mem (r g b : ℚ) (hr0 : 0 ≤ r) (hr1 : r ≤ 1)
    (hg0 : 0 ≤ g) (hg1 : g ≤ 1) (hb0 : 0 ≤ b) (hb1 : b ≤ 1) :
    0 ≤ (rgb_to_hsv r g b).2.1 ∧ (rgb_to_hsv r g b).2.1 ≤ 1 ∧
    0 ≤ (rgb_to_hsv r g b).2.2 ∧ (rgb_to_hsv r g b).2.2 ≤ 1 := by
  have hM0 : 0 ≤ hsvMax r g b := le_trans hr0 (le_max_left _ _)
  have hM1 : hsvMax r g b ≤ 1 := max_le hr1 (max_le hg1 hb1)
  have hm0 : 0 ≤ hsvMin r g b := le_min hr0 (le_min hg0 hb0)
  have hmM : hsvMin r g b ≤ hsvMax r g b :=
    le_trans (min_le_left _ _) (le_max_left _ _)
  unfold rgb_to_hsv
  by_cases he : hsvMin r g b = hsvMax r g b
  · rw [if_pos he]
    exact ⟨le_refl 0, by norm_num, hM0, hM1⟩
  · rw [if_neg he]
    have hlt : hsvMin r g b < hsvMax r g b := lt_of_le_of_ne hmM he
    have hMpos : 0 < hsvMax r g b := lt_of_le_of_lt hm0 hlt
    show 0 ≤ (hsvMax r g b - hsvMin r g b) / hsvMax r g b ∧
      (hsvMax r g b - hsvMin r g b) / hsvMax r g b ≤ 1 ∧
      0 ≤ hsvMax r g b ∧ hsvMax r g b ≤ 1
    refine ⟨div_nonneg (by linarith) (le_of_lt hMpos), ?_, hM0, hM1⟩
    rw [div_le_one hMpos]
    linarith

theorem satOf_valOf_mem (r g b : Int) (hr0 : 0 ≤ r) (hr1 : r ≤ 255)
    (hg0 : 0 ≤ g) (hg1 : g ≤ 255) (hb0 : 0 ≤ b) (hb1 : b ≤ 255) :
    0 ≤ satOf r g b ∧ satOf r g b ≤ 1 ∧ 0 ≤ valOf r g b ∧ valOf r g b ≤ 1 := by
  have c1 : (0:ℚ) ≤ (r:ℚ)/255 := by
    have : (0:ℚ) ≤ (r:ℚ) := by exact_mod_cast hr0
    linarith
  have c2 : (r:ℚ)/255 ≤ 1 := by
    have : (r:ℚ) ≤ 255 := by exact_mod_cast hr1
    linarith
  have c3 : (0:ℚ) ≤ (g:ℚ)/255 := by
    have : (0:ℚ) ≤ (g:ℚ) := by exact_mod_cast hg0
    linarith
  have c4 : (g:ℚ)/255 ≤ 1 := by
    have : (g:ℚ) ≤ 255 := by exact_mod_cast hg1
    linarith
  have c5 : (0:ℚ) ≤ (b:ℚ)/255 := by
    have : (0:ℚ) ≤ (b:ℚ) := by exact_mod_cast hb0
    linarith
  have c6 : (b:ℚ)/255 ≤ 1 := by
    have : (b:ℚ) ≤ 255 := by exact_mod_cast hb1
    linarith
  unfold satOf valOf hsvOf
  exact rgb_to_hsv_sv_mem _ _ _ c1 c2 c3 c4 c5 c6

theorem hsv_to_rgb_sector0 (h s v : ℚ) (hh0 : 0 ≤ h) (hh1 : h < 1/6)
    (hs0 : 0 ≤ s) (hs1 : s ≤ 1) (hv0 : 0 ≤ v) (hv1 : v ≤ 1) :
    0 ≤ (hsv_to_rgb h s v).2.2 ∧
    (hsv_to_rgb h s v).2.2 ≤ (hsv_to_rgb h s v).2.1 ∧
    (hsv_to_rgb h s v).2.1 ≤ (hsv_to_rgb h s v).1 ∧
    (hsv_to_rgb h s v).1 ≤ 1 := by
  unfold hsv_to_rgb
  by_cases hs : s = 0
  · rw [if_pos hs]
    exact ⟨hv0, le_refl v, le_refl v, hv1⟩
  · rw [if_neg hs]
    have hi : hsvI h = 0 := by
      unfold hsvI pytrunc
      rw [if_pos (by linarith : (0:ℚ) ≤ h * 6)]
      exact Int.floor_eq_zero_iff.mpr ⟨by linarith, by linarith⟩
    rw [hi]
    rw [if_pos (by decide : ((0:Int) % 6 = 0))]
    have hf : hsvF h = h * 6 := by
      unfold hsvF
      rw [hi]
      norm_num
    show 0 ≤ hsvP s v ∧ hsvP s v ≤ hsvT h s v ∧ hsvT h s v ≤ v ∧ v ≤ 1
    unfold hsvP hsvT
    rw [hf]
    have hsf : 0 ≤ s * (1 - h * 6) := mul_nonneg hs0 (by linarith)
    have hsf2 : s * (1 - h * 6) ≤ s := by
      calc s * (1 - h * 6) ≤ s * 1 := mul_le_mul_of_nonneg_left (by linarith) hs0
        _ = s := mul_one s
    refine ⟨mul_nonneg hv0 (by linarith), ?_, ?_, hv1⟩
    · exact mul_le_mul_of_nonneg_left (by linarith) hv0
    · calc v * (1 - s * (1 - h * 6)) ≤ v * 1 :=
          mul_le_mul_of_nonneg_left (by linarith) hv0
        _ = v := mul_one v

theorem hueDegOf_le_60 (R G B : Int) (hBG : B ≤ G) (hGR : G ≤ R) (hB0 : 0 ≤ B) :
    0 ≤ hueDegOf R G B ∧ hueDegOf R G B ≤ 60 := by
  have hbg : (B:ℚ)/255 ≤ (G:ℚ)/255 := by
    have : (B:ℚ) ≤ (G:ℚ) := by exact_mod_cast hBG
    linarith
  have hgr : (G:ℚ)/255 ≤ (R:ℚ)/255 := by
    have : (G:ℚ) ≤ (R:ℚ) := by exact_mod_cast hGR
    linarith
  have hb0 : (0:ℚ) ≤ (B:ℚ)/255 := by
    have : (0:ℚ) ≤ (B:ℚ) := by exact_mod_cast hB0
    linarith
  have hM : hsvMax ((R:ℚ)/255) ((G:ℚ)/255) ((B:ℚ)/255) = (R:ℚ)/255 := by
    unfold hsvMax
    rw [max_eq_left hbg, max_eq_left hgr]
  have hm : hsvMin ((R:ℚ)/255) ((G:ℚ)/255) ((B:ℚ)/255) = (B:ℚ)/255 := by
    unfold hsvMin
    rw [min_eq_right hbg, min_eq_right (le_trans hbg hgr)]
  by_cases he : (B:ℚ)/255 = (R:ℚ)/255
  · have heq : hueDegOf R G B = 0 * 360 := by
      unfold hueDegOf hsvOf rgb_to_hsv
      rw [hM, hm, if_pos he]
    rw [heq]
    norm_num
  · have hrange : 0 < (R:ℚ)/255 - (B:ℚ)/255 :=
      sub_pos.mpr (lt_of_le_of_ne (le_trans hbg hgr) he)
    have h6 : hueSix ((R:ℚ)/255) ((G:ℚ)/255) ((B:ℚ)/255) =
        1 - ((R:ℚ)/255 - (G:ℚ)/255) / ((R:ℚ)/255 - (B:ℚ)/255) := by
      unfold hueSix
      rw [hM, hm]
      rw [if_pos rfl]
      rw [div_self (ne_of_gt hrange)]
    have hq0 : 0 ≤ ((R:ℚ)/255 - (G:ℚ)/255) / ((R:ℚ)/255 - (B:ℚ)/255) :=
      div_nonneg (by linarith) (le_of_lt hrange)
    have hq1 : ((R:ℚ)/255 - (G:ℚ)/255) / ((R:ℚ)/255 - (B:ℚ)/255) ≤ 1 := by
      rw [div_le_one hrange]
      linarith
    have heq : hueDegOf R G B =
        Int.fract ((1 - ((R:ℚ)/255 - (G:ℚ)/255) / ((R:ℚ)/255 - (B:ℚ)/255)) / 6) * 360 := by
      unfold hueDegOf hsvOf rgb_to_hsv
      rw [hM, hm, if_neg he, h6]
    have hfr : Int.fract ((1 - ((R:ℚ)/255 - (G:ℚ)/255) / ((R:ℚ)/255 - (B:ℚ)/255)) / 6) =
        (1 - ((R:ℚ)/255 - (G:ℚ)/255) / ((R:ℚ)/255 - (B:ℚ)/255)) / 6 :=
      Int.fract_eq_self.mpr ⟨by linarith, by linarith⟩
    rw [heq, hfr]
    constructor
    · nlinarith
    · nlinarith

theorem recolor_pixel_ordered_passthrough (R G B a : Int) (th sb vb : ℚ)
    (hBG : B ≤ G) (hGR : G ≤ R) (hB0 : 0 ≤ B) :
    recolor_pixel R G B a th sb vb = (R, G, B, a) := by
  apply recolor_pixel_passthrough
  right; left
  intro hc
  have h60 := (hueDegOf_le_60 R G B hBG hGR hB0).2
  linarith [hc.1]

theorem recolor_pixel_twice (r g b a : Int) (th sb vb : ℚ)
    (hr0 : 0 ≤ r) (hr1 : r ≤ 255) (hg0 : 0 ≤ g) (hg1 : g ≤ 255)
    (hb0 : 0 ≤ b) (hb1 : b ≤ 255)
    (hth0 : 0 ≤ th) (hth1 : th < 60) (hsb : 0 ≤ sb) (hvb : 0 ≤ vb) :
    recolor_pixel (recolor_pixel r g b a th sb vb).1
      (recolor_pixel r g b a th sb vb).2.1
      (recolor_pixel r g b a th sb vb).2.2.1
      (recolor_pixel r g b a th sb vb).2.2.2 th sb vb =
      recolor_pixel r g b a th sb vb := by
  by_cases h10 : a < 10
  · have h1 : recolor_pixel r g b a th sb vb = (r, g, b, a) := by
      unfold recolor_pixel
      rw [if_pos h10]
    rw [h1]
    show recolor_pixel r g b a th sb vb = (r, g, b, a)
    exact h1
  · by_cases hband : BLUE_HUE_MIN ≤ hueDegOf r g b ∧ hueDegOf r g b ≤ BLUE_HUE_MAX ∧
        (0.15 : ℚ) < satOf r g b
    · obtain ⟨hs0, hs1, hv0, hv1⟩ := satOf_valOf_mem r g b hr0 hr1 hg0 hg1 hb0 hb1
      have hs'0 : 0 ≤ min 1 (satOf r g b * sb) :=
        le_min (by norm_num) (mul_nonneg hs0 hsb)
      have hs'1 : min 1 (satOf r g b * sb) ≤ 1 := min_le_left _ _
      have hv'0 : 0 ≤ min 1 (valOf r g b * vb) :=
        le_min (by norm_num) (mul_nonneg hv0 hvb)
      have hv'1 : min 1 (valOf r g b * vb) ≤ 1 := min_le_left _ _
      have hh0 : 0 ≤ th / 360 := by linarith
      have hh1 : th / 360 < 1/6 := by linarith
      obtain ⟨hp0, hpt, htv, hvle⟩ := hsv_to_rgb_sector0 (th/360)
        (min 1 (satOf r g b * sb)) (min 1 (valOf r g b * vb))
        hh0 hh1 hs'0 hs'1 hv'0 hv'1
      rw [recolor_pixel_rewrite r g b a th sb vb h10 hband]
      set X := hsv_to_rgb (th/360) (min 1 (satOf r g b * sb))
        (min 1 (valOf r g b * vb)) with hX
      have hx10 : 0 ≤ X.1 := le_trans hp0 (le_trans hpt htv)
      have hx20 : 0 ≤ X.2.1 := le_trans hp0 hpt
      have htr1 : pytrunc (X.1 * 255) = ⌊X.1 * 255⌋ :=
        if_pos (mul_nonneg hx10 (by norm_num))
      have htr2 : pytrunc (X.2.1 * 255) = ⌊X.2.1 * 255⌋ :=
        if_pos (mul_nonneg hx20 (by norm_num))
      have htr3 : pytrunc (X.2.2 * 255) = ⌊X.2.2 * 255⌋ :=
        if_pos (mul_nonneg hp0 (by norm_num))
      have hord1 : ⌊X.2.2 * 255⌋ ≤ ⌊X.2.1 * 255⌋ :=
        Int.floor_le_floor (mul_le_mul_of_nonneg_right hpt (by norm_num))
      have hord2 : ⌊X.2.1 * 255⌋ ≤ ⌊X.1 * 255⌋ :=
        Int.floor_le_floor (mul_le_mul_of_nonneg_right htv (by norm_num))
      have hfl0 : 0 ≤ ⌊X.2.2 * 255⌋ :=
        Int.floor_nonneg.mpr (mul_nonneg hp0 (by norm_num))
      show recolor_pixel (pytrunc (X.1 * 255)) (pytrunc (X.2.1 * 255))
        (pytrunc (X.2.2 * 255)) a th sb vb =
        (pytrunc (X.1 * 255), pytrunc (X.2.1 * 255), pytrunc (X.2.2 * 255), a)
      rw [htr1, htr2, htr3]
      exact recolor_pixel_ordered_passthrough ⌊X.1 * 255⌋ ⌊X.2.1 * 255⌋
        ⌊X.2.2 * 255⌋ a th sb vb hord1 hord2 hfl0
    · have h1 : recolor_pixel r g b a th sb vb = (r, g, b, a) := by
        unfold recolor_pixel
        rw [if_neg h10, if_neg hband]
      rw [h1]
      show recolor_pixel r g b a th sb vb = (r, g, b, a)
      exact h1

/-- C5 (amended): for every config whose target hue lies in `[0, 60)`
degrees (as the red and orange configs do) with nonnegative saturation
and value multipliers, applying the recolor transform twice to an 8-bit
RGBA image yields the same image as applying it once: every pixel the
first pass rewrites has all channel floors ordered `r >= g >= b`, so its
recomputed hue lies in `[0, 60]` degrees, outside the source band, and
the second pass passes it through unchanged. -/
theorem recolor_twice_eq_once (img : RImg) (th sb vb : ℚ)
    (hth0 : 0 ≤ th) (hth1 : th < 60) (hsb : 0 ≤ sb) (hvb : 0 ≤ vb)
    (hvalid : ∀ x, x < img.w → ∀ y, y < img.h → chanOK (img.pix x y)) :
    ∀ x, x < img.w → ∀ y, y < img.h →
      (recolor_image (recolor_image img th sb vb) th sb vb).pix x y =
        (recolor_image img th sb vb).pix x y := by
  intro x hx y hy
  obtain ⟨h1, h2, h3, h4, h5, h6⟩ := hvalid x hx y hy
  exact recolor_pixel_twice (img.pix x y).1 (img.pix x y).2.1
    (img.pix x y).2.2.1 (img.pix x y).2.2.2 th sb vb
    h1 h2 h3 h4 h5 h6 hth0 hth1 hsb hvb


/-- Witness for the amended C5 at the concrete dark blue 1-by-1 image
and the shipped red config (`target_hue 12`, `sat_boost 1.1`,
`val_boost 0.95`). -/
theorem recolor_twice_eq_once_witness :
    ((0:ℚ) ≤ 12 ∧ (12:ℚ) < 60 ∧ (0:ℚ) ≤ 11/10 ∧ (0:ℚ) ≤ 19/20 ∧
      (∀ x, x < bluePixelImg.w → ∀ y, y < bluePixelImg.h →
        chanOK (bluePixelImg.pix x y))) ∧
    (recolor_image (recolor_image bluePixelImg 12 (11/10) (19/20))
        12 (11/10) (19/20)).pix 0 0 =
      (recolor_image bluePixelImg 12 (11/10) (19/20)).pix 0 0 := by
  have hv : ∀ x, x < bluePixelImg.w → ∀ y, y < bluePixelImg.h →
      chanOK (bluePixelImg.pix x y) := by
    intro x hx y hy
    show chanOK (0, 0, 17, 255)
    decide
  exact ⟨⟨by norm_num, by norm_num, by norm_num, by norm_num, hv⟩,
    recolor_twice_eq_once bluePixelImg 12 (11/10) (19/20) (by norm_num)
      (by norm_num) (by norm_num) (by norm_num) hv 0 (by decide) 0 (by decide)⟩

end AIFarm
